import Mathlib

set_option maxRecDepth 100000

/-!
Verification of the chunking/parsing engine of `src/parsing/code_parser.py`
against its specification.  The Python code is shallowly embedded: pure
functions become Lean functions, the CPython `ast.parse` library call is a
parameter (`String → Option PyNode`) supplying the syntax tree (or `none`
when parsing raises `SyntaxError`), and machine-level library primitives the
code leans on (`hashlib.sha1`, `str.splitlines`, `str.strip`) are
implemented here so every definition is executable.
-/

/-! ## Python string primitives used by the code -/

/-- The whitespace class of Python `str.strip` and of the regex class `\s`
(space, tab, newline, carriage return, vertical tab, form feed). -/
def isPySpaceChar (c : Char) : Bool :=
  c = ' ' || c = '\t' || c = '\n' || c = '\r' || c = '\x0b' || c = '\x0c'

/-- Python `str.strip()`: drop leading and trailing whitespace. -/
def pyStrip (s : String) : String :=
  ⟨((s.data.dropWhile isPySpaceChar).reverse.dropWhile isPySpaceChar).reverse⟩

/-- Python `str.splitlines()` on the common line terminators `\n`, `\r\n`,
`\r`: the list of lines without their terminators; a trailing terminator
does not create an extra empty line, and `"".splitlines() = []`. -/
def pySplitlinesAux : List Char → List Char → List String
  | [], acc => if acc.isEmpty then [] else [⟨acc.reverse⟩]
  | '\n' :: rest, acc => ⟨acc.reverse⟩ :: pySplitlinesAux rest []
  | '\r' :: '\n' :: rest, acc => ⟨acc.reverse⟩ :: pySplitlinesAux rest []
  | '\r' :: rest, acc => ⟨acc.reverse⟩ :: pySplitlinesAux rest []
  | c :: rest, acc => pySplitlinesAux rest (c :: acc)

def pySplitlines (s : String) : List String := pySplitlinesAux s.data []

/-- Python `"\n".join(lines)`. -/
def joinNL : List String → String
  | [] => ""
  | [l] => l
  | l :: rest => l ++ "\n" ++ joinNL rest

/-- `code.count("\n")`: number of newline characters. -/
def countNL (s : String) : Nat := s.data.count '\n'

/-- Split at every `'\n'` (the positions where `re.MULTILINE`'s `^`
anchors): `splitNL "" = [""]`, and a trailing newline yields a final
empty piece. -/
def splitNLAux : List Char → List Char → List String
  | [], acc => [⟨acc.reverse⟩]
  | '\n' :: rest, acc => ⟨acc.reverse⟩ :: splitNLAux rest []
  | c :: rest, acc => splitNLAux rest (c :: acc)

def splitNL (s : String) : List String := splitNLAux s.data []

/-! ## SHA-1 (`hashlib.sha1(...).hexdigest()`), over `Nat` with explicit
32-bit masking -/

def mask32 (x : Nat) : Nat := x % 4294967296

/-- Left rotation of a 32-bit word (input assumed `< 2^32`). -/
def rotl (n x : Nat) : Nat := mask32 (x <<< n) + (x >>> (32 - n))

/-- UTF-8 encoding of one code point. -/
def charUtf8 (c : Nat) : List Nat :=
  if c < 128 then [c]
  else if c < 2048 then [192 + c / 64, 128 + c % 64]
  else if c < 65536 then [224 + c / 4096, 128 + (c / 64) % 64, 128 + c % 64]
  else [240 + c / 262144, 128 + (c / 4096) % 64, 128 + (c / 64) % 64, 128 + c % 64]

/-- UTF-8 bytes of a string (Python `str.encode("utf-8")`). -/
def utf8Bytes (s : String) : List Nat := (s.data.map (fun ch => charUtf8 ch.toNat)).flatten

/-- Big-endian bytes, `k` of them, of `x`. -/
def bytesBE (k : Nat) (x : Nat) : List Nat :=
  (List.range k).map (fun i => (x >>> (8 * (k - 1 - i))) % 256)

/-- SHA-1 message padding: `0x80`, zeros to 56 mod 64, 8-byte bit length. -/
def sha1Pad (msg : List Nat) : List Nat :=
  let ml := msg.length
  msg ++ [128] ++ List.replicate ((119 - ml % 64) % 64) 0 ++ bytesBE 8 (8 * ml)

/-- Split a byte list into 64-byte blocks (structural fuel: the list's
length bounds the number of blocks). -/
def chunks64Fuel : Nat → List Nat → List (List Nat)
  | 0, _ => []
  | _, [] => []
  | fuel + 1, l@(_ :: _) => l.take 64 :: chunks64Fuel fuel (l.drop 64)

/-- Split a byte list into 64-byte blocks. -/
def chunks64 (l : List Nat) : List (List Nat) := chunks64Fuel l.length l

/-- Group bytes into big-endian 32-bit words. -/
def bytesToWords : List Nat → List Nat
  | a :: b :: c :: d :: rest => (((a * 256 + b) * 256 + c) * 256 + d) :: bytesToWords rest
  | _ => []

/-- Extend a message schedule by one word. -/
def sha1ExtendStep (ws : Array Nat) : Array Nat :=
  let n := ws.size
  ws.push (rotl 1 (((ws.getD (n - 3) 0) ^^^ (ws.getD (n - 8) 0)) ^^^
                  ((ws.getD (n - 14) 0) ^^^ (ws.getD (n - 16) 0))))

/-- The 80-word message schedule of one block. -/
def sha1Schedule (block : List Nat) : Array Nat :=
  (List.range 64).foldl (fun ws _ => sha1ExtendStep ws) (bytesToWords block).toArray

/-- One SHA-1 round. -/
def sha1Round (st : Nat × Nat × Nat × Nat × Nat) (iw : Nat × Nat) :
    Nat × Nat × Nat × Nat × Nat :=
  let (a, b, c, d, e) := st
  let (i, w) := iw
  let f :=
    if i < 20 then (b &&& c) ||| ((4294967295 - b) &&& d)
    else if i < 40 then (b ^^^ c) ^^^ d
    else if i < 60 then ((b &&& c) ||| (b &&& d)) ||| (c &&& d)
    else (b ^^^ c) ^^^ d
  let k :=
    if i < 20 then 1518500249
    else if i < 40 then 1859775393
    else if i < 60 then 2400959708
    else 3395469782
  (mask32 (rotl 5 a + f + e + k + w), a, rotl 30 b, c, d)

/-- Process one 64-byte block. -/
def sha1Block (h : Nat × Nat × Nat × Nat × Nat) (block : List Nat) :
    Nat × Nat × Nat × Nat × Nat :=
  let ws := sha1Schedule block
  let (h0, h1, h2, h3, h4) := h
  let (a, b, c, d, e) :=
    (List.range 80).foldl (fun st i => sha1Round st (i, ws.getD i 0)) (h0, h1, h2, h3, h4)
  (mask32 (h0 + a), mask32 (h1 + b), mask32 (h2 + c), mask32 (h3 + d), mask32 (h4 + e))

def hexDigit (n : Nat) : Char :=
  if n < 10 then Char.ofNat (48 + n) else Char.ofNat (87 + n)

def toHex8 (x : Nat) : List Char :=
  (List.range 8).map (fun i => hexDigit ((x >>> (28 - 4 * i)) % 16))

/-- `hashlib.sha1(s.encode("utf-8")).hexdigest()`. -/
def sha1hex (s : String) : String :=
  let blocks := chunks64 (sha1Pad (utf8Bytes s))
  let (h0, h1, h2, h3, h4) :=
    blocks.foldl sha1Block (1732584193, 4023233417, 2562383102, 271733878, 3285377520)
  ⟨toHex8 h0 ++ toHex8 h1 ++ toHex8 h2 ++ toHex8 h3 ++ toHex8 h4⟩

/-! ## The Python syntax tree, as the code inspects it

`ast.parse` is a CPython library call; the embedding takes its outcome as a
parameter of type `String → Option PyNode` (`none` models the `SyntaxError`
branch).  A node records exactly the attributes `code_parser.py` reads:
its class (the `isinstance` checks), `name`, `lineno`, `end_lineno`, its
child nodes in `ast.iter_child_nodes` order, and the outcomes of the two
library helpers applied to it (`ast.get_source_segment`,
`ast.get_docstring`), which depend on column offsets the code never reads.
-/

/-- The node classes distinguished by `isinstance` checks in the code.
`boolOp` carries `len(node.values)`; import nodes carry their alias names
and (for `from`-imports) the optional module. All other classes are
`other`. -/
inductive PyKind where
  | module
  | functionDef (nm : String)
  | asyncFunctionDef (nm : String)
  | classDef (nm : String)
  | importStmt (names : List String)
  | importFrom (mod : Option String) (names : List String)
  | ifStmt
  | forStmt
  | whileStmt
  | asyncForStmt
  | ifExp
  | tryStmt
  | exceptHandler
  | boolOp (nvalues : Nat)
  | other
  deriving DecidableEq, Repr

mutual

inductive PyNode where
  | mk (kind : PyKind) (lineno : Nat) (endLineno : Option Nat)
      (srcSeg : Option String) (docstring : Option String)
      (children : PyForest)
  deriving Repr

inductive PyForest where
  | nil
  | cons (n : PyNode) (f : PyForest)
  deriving Repr

end

def PyForest.toList : PyForest → List PyNode
  | .nil => []
  | .cons n f => n :: f.toList

def PyForest.ofList : List PyNode → PyForest
  | [] => .nil
  | n :: ns => .cons n (PyForest.ofList ns)

def PyNode.kind : PyNode → PyKind
  | .mk k _ _ _ _ _ => k

def PyNode.lineno : PyNode → Nat
  | .mk _ l _ _ _ _ => l

def PyNode.endLineno : PyNode → Option Nat
  | .mk _ _ e _ _ _ => e

/-- What `ast.get_source_segment(source, node)` returns for this node
(`none` for `None` or an exception): carried on the node because it reads
column offsets the embedding does not model. -/
def PyNode.srcSeg : PyNode → Option String
  | .mk _ _ _ s _ _ => s

/-- What `ast.get_docstring(node)` returns for this node. -/
def PyNode.docstring : PyNode → Option String
  | .mk _ _ _ _ d _ => d

/-- The child nodes, in `ast.iter_child_nodes` order. -/
def PyNode.children : PyNode → List PyNode
  | .mk _ _ _ _ _ cs => cs.toList

/-- `tree.body` of a `Module` node: its child statements. -/
def PyNode.body (n : PyNode) : List PyNode := n.children

mutual

/-- Number of nodes of a subtree. -/
def PyNode.size : PyNode → Nat
  | .mk _ _ _ _ _ cs => 1 + cs.size

/-- Number of nodes of a forest. -/
def PyForest.size : PyForest → Nat
  | .nil => 0
  | .cons n f => n.size + f.size

end

/-- Number of nodes under (and including) each node of the list. -/
def sizeNodes : List PyNode → Nat
  | [] => 0
  | n :: ns => n.size + sizeNodes ns

/-- One step of `ast.walk`'s FIFO queue: pop a node, emit it, push its
children at the back.  Structured with explicit fuel so that it is both
total and kernel-computable; `bfs` always supplies enough fuel. -/
def bfsFuel : Nat → List PyNode → List PyNode
  | 0, _ => []
  | _, [] => []
  | fuel + 1, n :: rest => n :: bfsFuel fuel (rest ++ n.children)

/-- `ast.walk`: breadth-first traversal driven by a FIFO queue. -/
def bfs (q : List PyNode) : List PyNode := bfsFuel (sizeNodes q) q

/-- `ast.walk(tree)` starting from the tree's root node. -/
def walk (tree : PyNode) : List PyNode := bfs [tree]

/-! ## The chunk record and the chunk builder (`make_chunk`) -/

/-- The dictionary `make_chunk` returns, one field per key. -/
structure Chunk where
  id : String
  file_path : String
  language : String
  type : String
  name : Option String
  start_line : Int
  end_line : Int
  loc : Int
  size : Nat
  complexity : Option Nat
  imports : List String
  docstring : Option String
  code : String
  deriving DecidableEq, Repr

/-- Python f-string formatting of the `name` argument: `None` prints as
`"None"`. -/
def pyOptName : Option String → String
  | none => "None"
  | some s => s

/-- `isinstance(node, (ast.If, ast.For, ast.While, ast.AsyncFor, ast.IfExp,
ast.Try, ast.ExceptHandler))`. -/
def isBranch : PyKind → Bool
  | .ifStmt | .forStmt | .whileStmt | .asyncForStmt | .ifExp | .tryStmt
  | .exceptHandler => true
  | _ => false

/-- One node's effect on the complexity counter: both `if` statements of
the loop body in `compute_cyclomatic` (they are not exclusive in the
source, and are not for any node here either since kinds are disjoint).
`max(0, len(node.values) - 1)` is truncated `Nat` subtraction. -/
def cycStep (count : Nat) (n : PyNode) : Nat :=
  let count := if isBranch n.kind then count + 1 else count
  match n.kind with
  | .boolOp k => count + (k - 1)
  | _ => count

/-- `compute_cyclomatic(code)`: the argument is the outcome of
`ast.parse(code)` (`none` when that raises); on success, walk the whole
tree counting branching constructs starting from 1. -/
def compute_cyclomatic (parsed : Option PyNode) : Nat :=
  match parsed with
  | none => 1
  | some tree => (walk tree).foldl cycStep 1

/-- `make_chunk(path, typ, name, start, end, code, imports, doc, lang)`:
`start or 1` (Python `or`: `None` and `0` are falsy), end estimated from
the newline count of `code` when absent, `loc = max(1, end - start + 1)`,
`size = len(code)`, id the SHA-1 hex digest of `f"{path}:{name}:{start}:{end}"`
after the defaults were applied, and complexity computed only for Python.
`pyparse` stands for the `ast.parse` call `compute_cyclomatic` makes. -/
def make_chunk (pyparse : String → Option PyNode) (path typ : String)
    (name : Option String) (start end_ : Option Int) (code : String)
    (imports : List String) (doc : Option String) (lang : String) : Chunk :=
  let startv : Int := match start with
    | none => 1
    | some s => if s = 0 then 1 else s
  let endv : Int := match end_ with
    | none => startv + (countNL code : Int)
    | some e => e
  let loc : Int := max 1 (endv - startv + 1)
  let uid := sha1hex (path ++ ":" ++ pyOptName name ++ ":" ++ toString startv
    ++ ":" ++ toString endv)
  { id := uid
    file_path := path
    language := if lang = "" then "unknown" else lang
    type := typ
    name := name
    start_line := startv
    end_line := endv
    loc := loc
    size := code.length
    complexity := if lang = "python" then some (compute_cyclomatic (pyparse code)) else none
    imports := imports
    docstring := doc
    code := code }

/-! ## The Python deep-parse path (`parse_python` and its helpers) -/

/-- `isinstance(node, (ast.FunctionDef, ast.AsyncFunctionDef, ast.ClassDef))`. -/
def isDecl : PyKind → Bool
  | .functionDef _ | .asyncFunctionDef _ | .classDef _ => true
  | _ => false

/-- `getattr(node, "name", None)` as the loop reads it on declarations. -/
def declName : PyKind → Option String
  | .functionDef nm | .asyncFunctionDef nm | .classDef nm => some nm
  | _ => none

/-- `"class" if isinstance(node, ast.ClassDef) else "function"`. -/
def declType : PyKind → String
  | .classDef _ => "class"
  | _ => "function"

/-- The strings one walked node appends to the `imports` list: a
plain import appends each alias's dotted name, a `from`-import
prefixes the module (`node.module or ""`) when that string is
non-empty. -/
def importEntry : PyKind → List String
  | .importStmt names => names
  | .importFrom m names =>
    let mod := m.getD ""
    names.map (fun nm => if mod = "" then nm else mod ++ "." ++ nm)
  | _ => []

/-- The import-collection loop over `ast.walk(tree)`. -/
def collectImports (tree : PyNode) : List String :=
  (walk tree).foldl (fun acc n => acc ++ importEntry n.kind) []

/-- The naive line-slicing fallback of `get_source_segment`:
`lines[max(0, lineno - 1) : (end_lineno or start + 1)]` joined by
newlines. -/
def gssFallback (source : String) (n : PyNode) : String :=
  let lines := pySplitlines source
  let start := n.lineno - 1
  let e := n.endLineno.getD (start + 1)
  joinNL ((lines.drop start).take (e - start))

/-- `get_source_segment(source, node)`: the exact segment from
`ast.get_source_segment` when that returns a non-empty string, otherwise
the line-slicing fallback. -/
def get_source_segment (source : String) (n : PyNode) : String :=
  match n.srcSeg with
  | some seg => if seg ≠ "" then seg else gssFallback source n
  | none => gssFallback source n

/-- The 0-based half-open line ranges `(lineno - 1, end_lineno or lineno)`
of the top-level declarations, in body order (`remove_ranges` in
`get_module_level_code`). -/
def remove_ranges (tree : PyNode) : List (Nat × Nat) :=
  tree.body.filterMap (fun n =>
    if isDecl n.kind then
      some (n.lineno - 1, n.endLineno.getD ((n.lineno - 1) + 1))
    else none)

/-- `any(s <= i < e for (s, e) in ranges)`. -/
def coveredB (ranges : List (Nat × Nat)) (i : Nat) : Bool :=
  ranges.any (fun r => decide (r.1 ≤ i) && decide (i < r.2))

/-- `get_module_level_code(source, tree)`: drop every line covered by a
top-level declaration's range and rejoin the remainder with newlines. -/
def get_module_level_code (source : String) (tree : PyNode) : String :=
  let lines := pySplitlines source
  joinNL (((lines.enum).filter (fun p => !(coveredB (remove_ranges tree) p.1))).map
    Prod.snd)

/-- The chunk built for one top-level declaration node. -/
def declChunk (pyparse : String → Option PyNode) (path content : String)
    (imports : List String) (n : PyNode) : Chunk :=
  make_chunk pyparse path (declType n.kind) (declName n.kind)
    (some (n.lineno : Int))
    (match n.endLineno with | none => none | some e => some (e : Int))
    (get_source_segment content n) imports n.docstring "python"

/-- `parse_python(path, content)`.  `pyparse` models `ast.parse`: `none`
is the `SyntaxError` branch, which degrades to a single whole-file module
chunk with no imports and no docstring; on success, one chunk per
top-level declaration, with the module-residual chunk (if its text is
non-blank) inserted first. -/
def parse_python (pyparse : String → Option PyNode) (path content : String) :
    List Chunk :=
  match pyparse content with
  | none => [make_chunk pyparse path "module" none (some 1) none content [] none "python"]
  | some tree =>
    let imports := collectImports tree
    let chunks := tree.body.filterMap (fun n =>
      if isDecl n.kind then some (declChunk pyparse path content imports n) else none)
    let module_code := get_module_level_code content tree
    if pyStrip module_code ≠ "" then
      make_chunk pyparse path "module" none (some 1) none module_code imports
        tree.docstring "python" :: chunks
    else chunks

/-! ## The generic heuristic path (`generic_parse`) -/

def quoteChar : Char := Char.ofNat 39

def isQuote (c : Char) : Bool := c = quoteChar || c = '"'

/-- The viable completion of `from ['\"]([^'\"]+)['\"]` at a position:
an opening quote, a non-empty maximal run of non-quote characters (the
captured group), then a closing quote. -/
def quotedGroup (r : List Char) : Option String :=
  match r with
  | q :: rest =>
    if isQuote q then
      let tok := rest.takeWhile (fun c => !(isQuote c))
      if tok.isEmpty then none
      else if (rest.drop tok.length).isEmpty then none
      else some ⟨tok⟩
    else none
  | [] => none

/-- Like `quotedGroup` but the pattern continues with a literal `)` after
the closing quote (the `require(...)` alternative). -/
def quotedGroupParen (r : List Char) : Option String :=
  match r with
  | q :: rest =>
    if isQuote q then
      let tok := rest.takeWhile (fun c => !(isQuote c))
      if tok.isEmpty then none
      else
        match rest.drop tok.length with
        | _ :: ')' :: _ => some ⟨tok⟩
        | _ => none
    else none
  | [] => none

/-- Greedy `.*` semantics: the rightmost position where `sep` occurs and
the continuation `grp` succeeds wins. -/
def rightmostSep (sep : List Char) (grp : List Char → Option String) :
    List Char → Option String → Option String
  | [], acc => acc
  | c :: rest, acc =>
    let here := c :: rest
    let acc := if here.take sep.length = sep then
        match grp (here.drop sep.length) with
        | some t => some t
        | none => acc
      else acc
    rightmostSep sep grp rest acc

/-- One line's match of the javascript/typescript import pattern
`^\s*(?:import .* from ['\"]([^'\"]+)['\"]|const .* = require\(['\"]([^'\"]+)['\"]\))`,
the captured group when the line matches. -/
def jstsLineImport (line : String) : Option String :=
  let s := line.data.dropWhile isPySpaceChar
  if s.take 7 = "import ".data then
    rightmostSep " from ".data quotedGroup (s.drop 7) none
  else if s.take 6 = "const ".data then
    rightmostSep " = require(".data quotedGroupParen (s.drop 6) none
  else none

/-- One line's match of the generic import pattern
`^\s*(?:#|//)?\s*(import|require|using)\s+([^\s;'\"]+)`: the second
captured group (the token after the keyword). -/
def genericLineImport (line : String) : Option String :=
  let s := line.data.dropWhile isPySpaceChar
  let s := if s.take 2 = ['/', '/'] then s.drop 2
    else if s.take 1 = ['#'] then s.drop 1
    else s
  let s := s.dropWhile isPySpaceChar
  let tryKw (kw : List Char) : Option String :=
    if s.take kw.length = kw then
      match s.drop kw.length with
      | c :: _ =>
        if isPySpaceChar c then
          let r := (s.drop kw.length).dropWhile isPySpaceChar
          let tok := r.takeWhile (fun c => !(isPySpaceChar c) && c ≠ ';' && !(isQuote c))
          if tok.isEmpty then none else some ⟨tok⟩
        else none
      | [] => none
    else none
  match tryKw "import".data with
  | some t => some t
  | none =>
    match tryKw "require".data with
    | some t => some t
    | none => tryKw "using".data

/-- `re.findall` of the javascript/typescript pattern over the whole
content (`^` with `re.MULTILINE` anchors at newline boundaries), tuples
flattened to their non-empty group. -/
def jstsImports (content : String) : List String :=
  (splitNL content).filterMap jstsLineImport

/-- `re.findall` of the generic pattern, keeping each match's token group. -/
def genericImports (content : String) : List String :=
  (splitNL content).filterMap genericLineImport

/-- `generic_parse(path, content, lang)`: heuristic import scan, then the
whole file as a single module chunk. -/
def generic_parse (pyparse : String → Option PyNode) (path content lang : String) :
    List Chunk :=
  let imports :=
    if lang = "javascript" || lang = "typescript" then jstsImports content
    else genericImports content
  [make_chunk pyparse path "module" none (some 1) none content imports none lang]

/-! ## Language detection and dispatch (`detect_language`, `parse_file`) -/

/-- `os.path.splitext(path)[1]`: the extension starts at the last dot of
the basename, provided some earlier character of the basename is not a
dot (so dotfiles have no extension). -/
def splitextExt (path : String) : String :=
  let cs := path.data
  let sep := cs.length - 1 - ((cs.reverse).indexOf '/')
  let base := if (cs.contains '/') then cs.drop (sep + 1) else cs
  let stem := base.dropWhile (fun c => c = '.')
  if stem.contains '.' then
    let dotPos := stem.length - 1 - ((stem.reverse).indexOf '.')
    ⟨stem.drop dotPos⟩
  else ""

/-- `detect_language(path, content)`: extension lowered, then the fixed
extension table with default `"unknown"`. -/
def detect_language (path : String) (content : String) : String :=
  let ext := (splitextExt path).toLower
  if ext = ".py" then "python"
  else if ext = ".js" then "javascript"
  else if ext = ".ts" then "typescript"
  else if ext = ".java" then "java"
  else if ext = ".cpp" then "cpp"
  else if ext = ".c" then "c"
  else if ext = ".go" then "go"
  else if ext = ".rb" then "ruby"
  else if ext = ".php" then "php"
  else "unknown"

/-- One record of the ingested-file list, with the keys `parse_file`
reads; a missing key is `none`. -/
structure IngestEntry where
  path : Option String
  content : Option String
  size : Nat
  mime : Option String
  deriving Repr

/-- `parse_file(entry)`: defaults for missing keys, then dispatch on the
detected language. -/
def parse_file (pyparse : String → Option PyNode) (entry : IngestEntry) :
    List Chunk :=
  let path := entry.path.getD "<unknown>"
  let content := entry.content.getD ""
  let lang := detect_language path content
  if lang = "python" then parse_python pyparse path content
  else generic_parse pyparse path content lang


/-! ## Specification-side counting functions used by the claim theorems -/

/-- The claim's reading of a `from X import Y` contribution: `X.Y` when a
module is present, bare `Y` otherwise (compare `importEntry`, which tests
the string `node.module or ""` for emptiness instead). -/
def importSpec : PyKind → List String
  | .importStmt names => names
  | .importFrom (some m) names => names.map (fun nm => m ++ "." ++ nm)
  | .importFrom none names => names
  | _ => []

/-- Per-node extra complexity from short-circuit boolean nodes, as an
integer: `k - 1` for a node with `k` operands. -/
def boolOpExtraInt (n : PyNode) : Int :=
  match n.kind with
  | .boolOp k => (k : Int) - 1
  | _ => 0

/-- Well-formedness of a CPython boolean-operator node: it has at least
one operand (CPython in fact guarantees two). -/
def boolOpWF (n : PyNode) : Bool :=
  match n.kind with
  | .boolOp k => decide (1 ≤ k)
  | _ => true

/-- Well-formedness of a CPython `from`-import node: a present module
name is a non-empty string. -/
def importFromWF (n : PyNode) : Bool :=
  match n.kind with
  | .importFrom (some m) _ => decide (m ≠ "")
  | _ => true

/-- Well-formedness of a top-level statement of a parsed file with `L`
lines, as CPython guarantees it: a declaration node has a 1-based
`lineno` and an `end_lineno` with `lineno ≤ end_lineno ≤ L`. -/
def declWF (L : Nat) (n : PyNode) : Bool :=
  !(isDecl n.kind) ||
    (decide (1 ≤ n.lineno) &&
      (match n.endLineno with
       | some e => decide (n.lineno ≤ e) && decide (e ≤ L)
       | none => false))

/-! ## Concrete inputs used by witnesses and counterexamples

Each `…Parse` function records what CPython's `ast.parse` returns on the
strings the run actually parses (checked against CPython 3: line numbers,
`end_lineno`, body shapes). -/

/-- `"import os\n\ndef f():\n    return 1\n"` — the spec's worked example. -/
def exContent : String := "import os\n\ndef f():\n    return 1\n"

def exTree : PyNode :=
  .mk .module 1 none none none (.ofList
    [ .mk (.importStmt ["os"]) 1 (some 1) none none
        (.ofList [.mk .other 1 (some 1) none none .nil]),
      .mk (.functionDef "f") 3 (some 4) (some "def f():\n    return 1") none
        (.ofList [ .mk .other 3 (some 3) none none .nil,
                   .mk .other 4 (some 4) none none .nil ]) ])

/-- `ast.parse` of the residual text `"import os\n"`. -/
def exTreeResidual : PyNode :=
  .mk .module 1 none none none (.ofList
    [ .mk (.importStmt ["os"]) 1 (some 1) none none
        (.ofList [.mk .other 1 (some 1) none none .nil]) ])

/-- `ast.parse` of the extracted declaration `"def f():\n    return 1"`. -/
def exTreeSnippet : PyNode :=
  .mk .module 1 none none none (.ofList
    [ .mk (.functionDef "f") 1 (some 2) (some "def f():\n    return 1") none
        (.ofList [ .mk .other 1 (some 1) none none .nil,
                   .mk .other 2 (some 2) none none .nil ]) ])

def exParse : String → Option PyNode := fun s =>
  if s = exContent then some exTree
  else if s = "import os\n" then some exTreeResidual
  else if s = "def f():\n    return 1" then some exTreeSnippet
  else none

/-- A file whose one declaration sits between two residual lines. -/
def cexContent : String := "x = 1\ndef f():\n    pass\ny = 2"

def cexTree : PyNode :=
  .mk .module 1 none none none (.ofList
    [ .mk .other 1 (some 1) none none .nil,
      .mk (.functionDef "f") 2 (some 3) (some "def f():\n    pass") none
        (.ofList [.mk .other 3 (some 3) none none .nil]),
      .mk .other 4 (some 4) none none .nil ])

/-- `ast.parse` of the residual text `"x = 1\ny = 2"`. -/
def cexTreeResidual : PyNode :=
  .mk .module 1 none none none (.ofList
    [ .mk .other 1 (some 1) none none .nil,
      .mk .other 2 (some 2) none none .nil ])

/-- `ast.parse` of the extracted declaration `"def f():\n    pass"`. -/
def cexTreeSnippet : PyNode :=
  .mk .module 1 none none none (.ofList
    [ .mk (.functionDef "f") 1 (some 2) (some "def f():\n    pass") none
        (.ofList [.mk .other 2 (some 2) none none .nil]) ])

def cexParse : String → Option PyNode := fun s =>
  if s = cexContent then some cexTree
  else if s = "x = 1\ny = 2" then some cexTreeResidual
  else if s = "def f():\n    pass" then some cexTreeSnippet
  else none

/-- `ast.parse("")` and `ast.parse(" ")`: a `Module` with an empty body. -/
def emptyTree : PyNode := .mk .module 1 none none none .nil

def emptyParse : String → Option PyNode := fun s =>
  if s = "" then some emptyTree else if s = " " then some emptyTree else none

/-- An always-failing parse: every string raises `SyntaxError`. -/
def noneParse : String → Option PyNode := fun _ => none

/-- `"if a and b:\n    pass"`: one conditional over a two-operand boolean
expression. -/
def treeC6 : PyNode :=
  .mk .module 1 none none none (.ofList
    [ .mk .ifStmt 1 (some 2) none none
        (.ofList [ .mk (.boolOp 2) 1 (some 1) none none
                     (.ofList [ .mk .other 1 (some 1) none none .nil,
                                .mk .other 1 (some 1) none none .nil,
                                .mk .other 1 (some 1) none none .nil ]),
                   .mk .other 2 (some 2) none none .nil ]) ])

/-- `"import os\ndef g():\n    from a import b\nimport os"`:
duplicate imports and one import nested inside a declaration. -/
def contentC7 : String := "import os\ndef g():\n    from a import b\nimport os"

def treeC7 : PyNode :=
  .mk .module 1 none none none (.ofList
    [ .mk (.importStmt ["os"]) 1 (some 1) none none
        (.ofList [.mk .other 1 (some 1) none none .nil]),
      .mk (.functionDef "g") 2 (some 3) (some "def g():\n    from a import b") none
        (.ofList [ .mk .other 2 (some 2) none none .nil,
                   .mk (.importFrom (some "a") ["b"]) 3 (some 3) none none
                     (.ofList [.mk .other 3 (some 3) none none .nil]) ]),
      .mk (.importStmt ["os"]) 4 (some 4) none none
        (.ofList [.mk .other 4 (some 4) none none .nil]) ])

/-- `ast.parse` of the residual `"import os\nimport os"`. -/
def treeC7Residual : PyNode :=
  .mk .module 1 none none none (.ofList
    [ .mk (.importStmt ["os"]) 1 (some 1) none none
        (.ofList [.mk .other 1 (some 1) none none .nil]),
      .mk (.importStmt ["os"]) 2 (some 2) none none
        (.ofList [.mk .other 2 (some 2) none none .nil]) ])

/-- `ast.parse` of the extracted declaration `"def g():\n    from a import b"`. -/
def treeC7Snippet : PyNode :=
  .mk .module 1 none none none (.ofList
    [ .mk (.functionDef "g") 1 (some 2) (some "def g():\n    from a import b") none
        (.ofList [ .mk .other 1 (some 1) none none .nil,
                   .mk (.importFrom (some "a") ["b"]) 2 (some 2) none none
                     (.ofList [.mk .other 2 (some 2) none none .nil]) ]) ])

def parseC7 : String → Option PyNode := fun s =>
  if s = contentC7 then some treeC7
  else if s = "import os\nimport os" then some treeC7Residual
  else if s = "def g():\n    from a import b" then some treeC7Snippet
  else none

/-- `"def g():\n    def h():\n        pass\n    return h"`: a function
nested inside a top-level function, no residual. -/
def contentC8 : String := "def g():\n    def h():\n        pass\n    return h"

def treeC8 : PyNode :=
  .mk .module 1 none none none (.ofList
    [ .mk (.functionDef "g") 1 (some 4) (some contentC8) none
        (.ofList [ .mk .other 1 (some 1) none none .nil,
                   .mk (.functionDef "h") 2 (some 3) (some "def h():\n        pass") none
                     (.ofList [.mk .other 3 (some 3) none none .nil]),
                   .mk .other 4 (some 4) none none .nil ]) ])

def parseC8 : String → Option PyNode := fun s =>
  if s = contentC8 then some treeC8 else none

/-! ## Claim theorems -/

/-- C3: whenever `ast.parse(content)` fails, `parse_python` does not
propagate the failure: it returns exactly one chunk of type `"module"`
whose code is the full input, with `start_line = 1`, empty imports and no
docstring. -/
theorem C3_parse_failure_degrades (pyparse : String → Option PyNode)
    (path content : String) (hp : pyparse content = none) :
    parse_python pyparse path content =
      [make_chunk pyparse path "module" none (some 1) none content [] none "python"] ∧
    ∃ c, parse_python pyparse path content = [c] ∧ c.type = "module" ∧
      c.code = content ∧ c.start_line = 1 ∧ c.imports = [] ∧ c.docstring = none := by
  have h : parse_python pyparse path content =
      [make_chunk pyparse path "module" none (some 1) none content [] none "python"] := by
    simp [parse_python, hp]
  refine ⟨h, _, h, ?_, ?_, ?_, ?_, ?_⟩ <;> simp [make_chunk]

/-- C3 witness: the failing input `"def ("` under the always-failing
parse outcome degrades to the single whole-file module chunk. -/
theorem C3_witness :
    parse_python noneParse "a.py" "def (" =
      [make_chunk noneParse "a.py" "module" none (some 1) none "def (" [] none "python"] ∧
    ∃ c, parse_python noneParse "a.py" "def (" = [c] ∧ c.type = "module" ∧
      c.code = "def (" ∧ c.start_line = 1 ∧ c.imports = [] ∧ c.docstring = none :=
  C3_parse_failure_degrades noneParse "a.py" "def (" rfl

/-- C4: `parse_file` is a pure function of the entry's `path` and
`content`: two entries agreeing on those (whatever their `size` and
mime-type fields, and over the same `ast.parse` behavior) produce
identical chunk sequences, identical `id`s included. -/
theorem C4_parse_file_deterministic (pyparse : String → Option PyNode)
    (e1 e2 : IngestEntry) (hpath : e1.path = e2.path)
    (hcontent : e1.content = e2.content) :
    parse_file pyparse e1 = parse_file pyparse e2 ∧
    (parse_file pyparse e1).map Chunk.id = (parse_file pyparse e2).map Chunk.id := by
  unfold parse_file
  rw [hpath, hcontent]
  exact ⟨rfl, rfl⟩

/-- C4 witness: two ingest records for `a.py` with the same content but
different sizes and mime-types parse to the same chunks. -/
theorem C4_witness :
    parse_file exParse ⟨some "a.py", some exContent, 34, some "text/x-python"⟩ =
      parse_file exParse ⟨some "a.py", some exContent, 0, none⟩ ∧
    (parse_file exParse ⟨some "a.py", some exContent, 34, some "text/x-python"⟩).map Chunk.id =
      (parse_file exParse ⟨some "a.py", some exContent, 0, none⟩).map Chunk.id :=
  C4_parse_file_deterministic exParse _ _ rfl rfl

/-- C5: the chunk builder's contract: `start` defaults to 1 when absent
(Python `or`), an absent `end` is estimated as `start` plus the newline
count of `code`, `loc = max(1, end - start + 1)`, `size = len(code)`,
the id is the SHA-1 hex digest of `"{path}:{name}:{start}:{end}"` over
the defaulted values, and complexity is computed exactly when the
language is `"python"`. -/
theorem C5_make_chunk_contract (pyparse : String → Option PyNode)
    (path typ : String) (name : Option String) (start end_ : Option Int)
    (code : String) (imports : List String) (doc : Option String) (lang : String) :
    (make_chunk pyparse path typ name start end_ code imports doc lang).start_line =
      (match start with | none => 1 | some s => if s = 0 then 1 else s) ∧
    (make_chunk pyparse path typ name start end_ code imports doc lang).end_line =
      (match end_ with
       | none => (make_chunk pyparse path typ name start end_ code imports doc lang).start_line +
           (countNL code : Int)
       | some e => e) ∧
    (make_chunk pyparse path typ name start end_ code imports doc lang).loc =
      max 1 ((make_chunk pyparse path typ name start end_ code imports doc lang).end_line -
        (make_chunk pyparse path typ name start end_ code imports doc lang).start_line + 1) ∧
    (make_chunk pyparse path typ name start end_ code imports doc lang).size = code.length ∧
    (make_chunk pyparse path typ name start end_ code imports doc lang).id =
      sha1hex (path ++ ":" ++ pyOptName name ++ ":" ++
        toString (make_chunk pyparse path typ name start end_ code imports doc lang).start_line ++
        ":" ++
        toString (make_chunk pyparse path typ name start end_ code imports doc lang).end_line) ∧
    (make_chunk pyparse path typ name start end_ code imports doc lang).complexity =
      (if lang = "python" then some (compute_cyclomatic (pyparse code)) else none) := by
  cases start <;> cases end_ <;> simp [make_chunk]

/-- C9: the generic path never fails and yields exactly one module chunk
covering the whole file, with complexity absent; the import list is
whatever the heuristic line scan finds, and for empty content both
heuristic scans find nothing. -/
theorem C9_generic_single_chunk (pyparse : String → Option PyNode)
    (path content lang : String) (hl : lang ≠ "python") :
    ∃ c, generic_parse pyparse path content lang = [c] ∧ c.type = "module" ∧
      c.code = content ∧ c.complexity = none ∧ c.name = none ∧
      c.imports = (if lang = "javascript" || lang = "typescript"
        then (splitNL content).filterMap jstsLineImport
        else (splitNL content).filterMap genericLineImport) ∧
      jstsImports "" = [] ∧ genericImports "" = [] := by
  refine ⟨_, rfl, ?_, ?_, ?_, ?_, ?_, by decide, by decide⟩ <;>
    simp [make_chunk, generic_parse, hl, jstsImports, genericImports]

/-- C9 witness: a ruby file with one `require` line yields one module
chunk with the token collected and no complexity. -/
theorem C9_witness :
    ∃ c, generic_parse noneParse "l.rb" "require json\nx = 1" "ruby" = [c] ∧
      c.type = "module" ∧ c.code = "require json\nx = 1" ∧ c.complexity = none ∧
      c.name = none ∧
      c.imports = (if ("ruby" = "javascript" || "ruby" = "typescript")
        then (splitNL "require json\nx = 1").filterMap jstsLineImport
        else (splitNL "require json\nx = 1").filterMap genericLineImport) ∧
      jstsImports "" = [] ∧ genericImports "" = [] :=
  C9_generic_single_chunk noneParse "l.rb" "require json\nx = 1" "ruby" (by decide)

/-- C10 counterexample: with an absent `end` argument, two builder calls
that differ only in `code` (here by its newline count) receive different
ids — the id is not independent of the text content. -/
theorem C10_cex :
    (make_chunk noneParse "p" "module" none (some 1) none "a\nb" [] none "x").id ≠
    (make_chunk noneParse "p" "module" none (some 1) none "a" [] none "x").id := by
  decide

/-- C10 (amended): the id depends only on `(path, name, start, end)`
whenever the `end` argument is present; when `end` is absent it depends
additionally on the newline count of `code` — so any two calls agreeing
on path, name, start, end-argument and newline count (in particular the
declaration chunks of `parse_python`, which always pass an explicit
`end_lineno`) receive the same id, whatever their code text, imports,
docstring, type or language. -/
theorem C10_id_key (pyparse1 pyparse2 : String → Option PyNode)
    (path typ1 typ2 : String) (name : Option String) (start : Option Int)
    (e : Int) (code1 code2 : String) (imports1 imports2 : List String)
    (doc1 doc2 : Option String) (lang1 lang2 : String)
    (hnl : countNL code1 = countNL code2) :
    (make_chunk pyparse1 path typ1 name start (some e) code1 imports1 doc1 lang1).id =
      (make_chunk pyparse2 path typ2 name start (some e) code2 imports2 doc2 lang2).id ∧
    (make_chunk pyparse1 path typ1 name start none code1 imports1 doc1 lang1).id =
      (make_chunk pyparse2 path typ2 name start none code2 imports2 doc2 lang2).id := by
  constructor <;> simp [make_chunk, hnl]

/-- C10 witness: same key and newline count, different code, imports,
docstring, type and language — same ids in both the explicit-`end` and
estimated-`end` cases. -/
theorem C10_witness :
    (make_chunk noneParse "p" "function" (some "f") (some 2) (some 9) "x = 1" ["os"]
        (some "d") "python").id =
      (make_chunk noneParse "p" "class" (some "f") (some 2) (some 9) "y = 2" [] none "go").id ∧
    (make_chunk noneParse "p" "function" (some "f") (some 2) none "x = 1" ["os"]
        (some "d") "python").id =
      (make_chunk noneParse "p" "class" (some "f") (some 2) none "y = 2" [] none "go").id :=
  C10_id_key noneParse noneParse "p" "function" "class" (some "f") (some 2) 9
    "x = 1" "y = 2" ["os"] [] (some "d") none "python" "go" rfl

/-! ### Shared helper lemmas -/

theorem filterMap_if {α β : Type} (p : α → Bool) (g : α → β) (l : List α) :
    l.filterMap (fun a => if p a then some (g a) else none) = (l.filter p).map g := by
  induction l with
  | nil => rfl
  | cons a l ih =>
    by_cases h : p a <;> simp [List.filterMap_cons, List.filter_cons, h, ih]

theorem foldl_append_eq {α β : Type} (f : α → List β) (l : List α) :
    ∀ acc : List β, l.foldl (fun a n => a ++ f n) acc = acc ++ (l.map f).flatten := by
  induction l with
  | nil => simp
  | cons n l ih => intro acc; simp [List.foldl_cons, ih]

theorem foldl_cycStep_ge (l : List PyNode) : ∀ c : Nat, c ≤ l.foldl cycStep c := by
  induction l with
  | nil => simp
  | cons n l ih =>
    intro c
    refine le_trans ?_ (ih (cycStep c n))
    cases hk : n.kind <;> simp [cycStep, hk, isBranch] <;> omega

theorem foldl_cycStep_eq (l : List PyNode) : ∀ c : Nat,
    l.foldl cycStep c = c + l.countP (fun n => isBranch n.kind) +
      (l.map (fun n => match n.kind with | .boolOp k => k - 1 | _ => 0)).sum := by
  induction l with
  | nil => simp
  | cons n l ih =>
    intro c
    rw [List.foldl_cons, ih, List.countP_cons]
    simp only [List.map_cons, List.sum_cons]
    cases hk : n.kind <;> simp [cycStep, isBranch, hk] <;> omega

/-- The sum of the truncated `Nat` boolean-operator contributions casts to
the integer sum `k - 1` when every boolean node has at least one operand. -/
theorem boolSum_cast (l : List PyNode) (hb : ∀ n ∈ l, boolOpWF n = true) :
    (((l.map (fun n => match n.kind with | .boolOp k => k - 1 | _ => 0)).sum : Nat) : Int) =
      (l.map boolOpExtraInt).sum := by
  induction l with
  | nil => simp
  | cons n l ih =>
    simp only [List.map_cons, List.sum_cons]
    have hn := hb n (List.mem_cons_self n l)
    have ihl := ih (fun m hm => hb m (List.mem_cons_of_mem n hm))
    cases hk : n.kind <;>
      simp only [boolOpWF, boolOpExtraInt, hk] at hn ⊢ <;>
      push_cast [← ihl] <;> try omega
    case boolOp k =>
      simp at hn
      push_cast [← ihl]
      omega

/-- C2 counterexample: the empty Python file and the whitespace-only
Python file both parse successfully to an empty module body, and
`parse_python` emits zero chunks for them — not the single module chunk
the claim requires for `""`, and not “at least one chunk” for the
non-empty content `" "`. -/
theorem C2_cex :
    parse_python emptyParse "a.py" "" = [] ∧
    parse_python emptyParse "a.py" " " = [] ∧ (" " : String) ≠ "" := by
  exact ⟨by decide, by decide, by decide⟩

/-- C2 (amended): on a successful parse the pass emits zero chunks
exactly when the file has no top-level declaration and its module
residual is whitespace-only (so the empty and whitespace-only files yield
zero chunks); a file whose parse fails always yields one chunk. -/
theorem C2_chunk_emission (pyparse : String → Option PyNode)
    (path content : String) (tree : PyNode) (hp : pyparse content = some tree) :
    (parse_python pyparse path content = [] ↔
      (tree.body.filter (fun n => isDecl n.kind) = [] ∧
        pyStrip (get_module_level_code content tree) = "")) ∧
    (∀ pp : String → Option PyNode, ∀ pt ct : String, pp ct = none →
      parse_python pp pt ct ≠ []) := by
  constructor
  · simp only [parse_python, hp]
    rw [filterMap_if]
    by_cases hres : pyStrip (get_module_level_code content tree) = ""
    · simp [hres, List.map_eq_nil_iff]
    · simp [hres]
  · intro pp pt ct h
    simp [parse_python, h]

/-- C2 witness: the amended statement at the empty file. -/
theorem C2_witness :
    (parse_python emptyParse "a.py" "" = [] ↔
      (emptyTree.body.filter (fun n => isDecl n.kind) = [] ∧
        pyStrip (get_module_level_code "" emptyTree) = "")) ∧
    (∀ pp : String → Option PyNode, ∀ pt ct : String, pp ct = none →
      parse_python pp pt ct ≠ []) :=
  C2_chunk_emission emptyParse "a.py" "" emptyTree rfl

/-- C6: the complexity estimator returns at least 1 for every parse
outcome, returns exactly 1 when the code fails to parse, and on success
returns 1 plus one per branching construct (conditional, loop, async
loop, conditional expression, try, except handler) in the full walk plus
`k - 1` per boolean-logic node with `k` operands. -/
theorem C6_cyclomatic (parsed : Option PyNode) (tree : PyNode)
    (hb : (walk tree).all boolOpWF = true) :
    1 ≤ compute_cyclomatic parsed ∧ compute_cyclomatic none = 1 ∧
    ((compute_cyclomatic (some tree) : Int) =
      1 + ((walk tree).countP (fun n => isBranch n.kind) : Int) +
        ((walk tree).map boolOpExtraInt).sum) := by
  refine ⟨?_, rfl, ?_⟩
  · cases parsed with
    | none => simp [compute_cyclomatic]
    | some t => exact foldl_cycStep_ge (walk t) 1
  · rw [compute_cyclomatic, foldl_cycStep_eq,
      ← boolSum_cast (walk tree) (List.all_eq_true.mp hb)]
    push_cast
    ring

/-- C6 witness: `if a and b:\n    pass` — one conditional plus one
two-operand boolean node gives complexity 3. -/
theorem C6_witness :
    (1 ≤ compute_cyclomatic (some treeC6) ∧ compute_cyclomatic none = 1 ∧
    ((compute_cyclomatic (some treeC6) : Int) =
      1 + ((walk treeC6).countP (fun n => isBranch n.kind) : Int) +
        ((walk treeC6).map boolOpExtraInt).sum)) ∧
    compute_cyclomatic (some treeC6) = 3 :=
  ⟨C6_cyclomatic (some treeC6) treeC6 (by decide), by decide⟩

/-- C7: on a successful parse the import list is the concatenation, over
the full breadth-first walk of the whole tree (not just top level,
without deduplication), of each node's contributions — a plain import's
dotted module names, and `X.Y` (or bare `Y` when no module is present)
for `from X import Y` — and every emitted chunk carries that same list. -/
theorem C7_imports (pyparse : String → Option PyNode) (path content : String)
    (tree : PyNode) (hp : pyparse content = some tree)
    (hm : (walk tree).all importFromWF = true) :
    collectImports tree = ((walk tree).map (fun n => importSpec n.kind)).flatten ∧
    ∀ c ∈ parse_python pyparse path content, c.imports = collectImports tree := by
  constructor
  · rw [collectImports, foldl_append_eq, List.nil_append]
    congr 1
    refine List.map_congr_left (fun n hn => ?_)
    have hw := List.all_eq_true.mp hm n hn
    cases hk : n.kind <;> simp only [importEntry, importSpec, hk]
    case importFrom m names =>
      cases m with
      | none => simp [Option.getD]
      | some mv =>
        simp only [importFromWF, hk] at hw
        simp only [Option.getD]
        have : ¬ mv = "" := by simpa using hw
        simp [this]
  · intro c hc
    simp only [parse_python, hp] at hc
    by_cases hres : pyStrip (get_module_level_code content tree) = ""
    · simp only [hres, ne_eq, not_true_eq_false, if_false] at hc
      rcases List.mem_filterMap.mp hc with ⟨n, _, hfn⟩
      by_cases hd : isDecl n.kind <;> simp [hd] at hfn
      rw [← hfn]
      rfl
    · simp only [hres, ne_eq, not_false_eq_true, if_true, List.mem_cons] at hc
      rcases hc with hc | hc
      · rw [hc]; rfl
      · rcases List.mem_filterMap.mp hc with ⟨n, _, hfn⟩
        by_cases hd : isDecl n.kind <;> simp [hd] at hfn
        rw [← hfn]
        rfl

/-- C7 witness: a file with a duplicated top-level import and an import
nested inside a function body — the walk collects `["os", "os", "a.b"]`
(breadth-first, duplicates kept) and both emitted chunks carry it. -/
theorem C7_witness :
    (collectImports treeC7 = ((walk treeC7).map (fun n => importSpec n.kind)).flatten ∧
      ∀ c ∈ parse_python parseC7 "a.py" contentC7, c.imports = collectImports treeC7) ∧
    collectImports treeC7 = ["os", "os", "a.b"] :=
  ⟨C7_imports parseC7 "a.py" contentC7 treeC7 rfl (by decide), by decide⟩

/-- C8: on a successful parse the output is the module chunk (emitted
exactly when the residual is non-blank, and placed first) followed by the
declaration chunks in body order; every non-module chunk is the chunk of
some top-level declaration (so nested declarations are never separately
chunked), and the output length is the number of top-level declarations
plus one for the module chunk when present. -/
theorem C8_ordering (pyparse : String → Option PyNode) (path content : String)
    (tree : PyNode) (hp : pyparse content = some tree) :
    parse_python pyparse path content =
      (if pyStrip (get_module_level_code content tree) = "" then []
       else [make_chunk pyparse path "module" none (some 1) none
              (get_module_level_code content tree) (collectImports tree)
              tree.docstring "python"]) ++
      (tree.body.filter (fun n => isDecl n.kind)).map
        (declChunk pyparse path content (collectImports tree)) ∧
    (∀ c ∈ parse_python pyparse path content, c.type ≠ "module" →
      ∃ n ∈ tree.body, isDecl n.kind = true ∧
        c = declChunk pyparse path content (collectImports tree) n) ∧
    (parse_python pyparse path content).length =
      (if pyStrip (get_module_level_code content tree) = "" then 0 else 1) +
        (tree.body.filter (fun n => isDecl n.kind)).length := by
  have hmain : parse_python pyparse path content =
      (if pyStrip (get_module_level_code content tree) = "" then []
       else [make_chunk pyparse path "module" none (some 1) none
              (get_module_level_code content tree) (collectImports tree)
              tree.docstring "python"]) ++
      (tree.body.filter (fun n => isDecl n.kind)).map
        (declChunk pyparse path content (collectImports tree)) := by
    simp only [parse_python, hp]
    rw [filterMap_if]
    by_cases hres : pyStrip (get_module_level_code content tree) = "" <;>
      simp [hres]
  refine ⟨hmain, ?_, ?_⟩
  · intro c hc hmod
    rw [hmain] at hc
    rcases List.mem_append.mp hc with hc | hc
    · exfalso
      apply hmod
      by_cases hres : pyStrip (get_module_level_code content tree) = "" <;>
        simp [hres] at hc
      rw [hc]
      rfl
    · rcases List.mem_map.mp hc with ⟨n, hn, hceq⟩
      exact ⟨n, (List.mem_filter.mp hn).1, (List.mem_filter.mp hn).2, hceq.symm⟩
  · rw [hmain, List.length_append, List.length_map]
    by_cases hres : pyStrip (get_module_level_code content tree) = "" <;> simp [hres]

/-- C8 witness: a file whose single top-level function contains a nested
function and leaves no residual — exactly one chunk, the top-level
function's, and the nested function is not separately chunked. -/
theorem C8_witness :
    (parse_python parseC8 "a.py" contentC8 =
      (if pyStrip (get_module_level_code contentC8 treeC8) = "" then []
       else [make_chunk parseC8 "a.py" "module" none (some 1) none
              (get_module_level_code contentC8 treeC8) (collectImports treeC8)
              treeC8.docstring "python"]) ++
      (treeC8.body.filter (fun n => isDecl n.kind)).map
        (declChunk parseC8 "a.py" contentC8 (collectImports treeC8)) ∧
    (∀ c ∈ parse_python parseC8 "a.py" contentC8, c.type ≠ "module" →
      ∃ n ∈ treeC8.body, isDecl n.kind = true ∧
        c = declChunk parseC8 "a.py" contentC8 (collectImports treeC8) n) ∧
    (parse_python parseC8 "a.py" contentC8).length =
      (if pyStrip (get_module_level_code contentC8 treeC8) = "" then 0 else 1) +
        (treeC8.body.filter (fun n => isDecl n.kind)).length) ∧
    (parse_python parseC8 "a.py" contentC8).length = 1 ∧
    (parse_python parseC8 "a.py" contentC8).map Chunk.name = [some "g"] :=
  ⟨C8_ordering parseC8 "a.py" contentC8 treeC8 rfl, by decide, by decide⟩

/-! ### Line-counting lemmas for the coverage claim -/

/-- The residual keeps as many lines as there are uncovered indices. -/
theorem keep_length (lines : List String) (rs : List (Nat × Nat)) :
    ((lines.enum.filter (fun p => !(coveredB rs p.1))).map Prod.snd).length =
      (List.range lines.length).countP (fun i => !(coveredB rs i)) := by
  rw [List.length_map, ← List.countP_eq_length_filter, ← List.enum_map_fst lines,
    List.countP_map]
  rfl

/-- `countP` of a pointwise-disjoint disjunction splits into a sum. -/
theorem countP_or_disj {α : Type} (p q : α → Bool) (l : List α)
    (h : ∀ a ∈ l, ¬(p a = true ∧ q a = true)) :
    l.countP (fun a => p a || q a) = l.countP p + l.countP q := by
  induction l with
  | nil => simp
  | cons a l ih =>
    have ha := h a (List.mem_cons_self a l)
    rw [List.countP_cons, List.countP_cons, List.countP_cons,
      ih (fun b hb => h b (List.mem_cons_of_mem a hb))]
    by_cases hp : p a = true <;> by_cases hq : q a = true <;> simp [hp, hq] at ha ⊢ <;> omega

/-- Number of indices of `range L` inside the half-open interval `[s, e)`. -/
theorem countP_inRange (s e L : Nat) :
    (List.range L).countP (fun i => decide (s ≤ i) && decide (i < e)) =
      min e L - min s L := by
  induction L with
  | zero => simp
  | succ L ih =>
    rw [List.range_succ, List.countP_append, ih]
    by_cases hs : s ≤ L <;> by_cases he : L < e <;>
      simp [List.countP_cons, hs, he] <;> omega

/-- For pairwise-disjoint in-bound ranges, the covered indices of
`range L` number exactly the sum of the range lengths. -/
theorem countP_covered (rs : List (Nat × Nat)) (L : Nat)
    (hb : ∀ r ∈ rs, r.2 ≤ L)
    (hd : rs.Pairwise (fun a b => a.2 ≤ b.1)) :
    (List.range L).countP (coveredB rs) = (rs.map (fun r => r.2 - r.1)).sum := by
  induction rs with
  | nil => simp [coveredB]
  | cons r rs ih =>
    have hcons : ∀ i : Nat, coveredB (r :: rs) i =
        ((decide (r.1 ≤ i) && decide (i < r.2)) || coveredB rs i) := by
      intro i; simp [coveredB]
    rw [List.countP_congr (fun i _ => by rw [hcons i])]
    rw [countP_or_disj _ _ _ ?disj]
    case disj =>
      intro i _ ⟨hin, hcov⟩
      simp only [Bool.and_eq_true, decide_eq_true_eq] at hin
      rcases List.any_eq_true.mp hcov with ⟨t, ht, hti⟩
      simp only [Bool.and_eq_true, decide_eq_true_eq] at hti
      have := (List.pairwise_cons.mp hd).1 t ht
      omega
    rw [countP_inRange, ih (fun t ht => hb t (List.mem_cons_of_mem r ht))
      (List.pairwise_cons.mp hd).2]
    have hrL := hb r (List.mem_cons_self r rs)
    simp only [List.map_cons, List.sum_cons]
    omega

/-- Covered and uncovered indices together number `L`. -/
theorem range_countP_split (p : Nat → Bool) (L : Nat) :
    (List.range L).countP (fun i => !(p i)) + (List.range L).countP p = L := by
  have h := List.length_eq_countP_add_countP p (List.range L)
  rw [List.length_range] at h
  have hc : (List.range L).countP (fun i => decide ¬p i = true) =
      (List.range L).countP (fun i => !(p i)) := by
    refine List.countP_congr (fun i _ => by by_cases hp : p i <;> simp [hp])
  omega

/-- Joining lines that contain no newline character puts `length - 1`
newline characters between them. -/
theorem countNL_joinNL (ls : List String) (h : ∀ l ∈ ls, countNL l = 0) :
    countNL (joinNL ls) = ls.length - 1 := by
  induction ls with
  | nil => simp [joinNL, countNL]
  | cons l ls ih =>
    cases ls with
    | nil => simpa [joinNL] using h l (List.mem_cons_self l [])
    | cons l2 ls2 =>
      have hl := h l (List.mem_cons_self l (l2 :: ls2))
      have hrest := ih (fun x hx => h x (List.mem_cons_of_mem l hx))
      show countNL (l ++ "\n" ++ joinNL (l2 :: ls2)) = (l2 :: ls2).length + 1 - 1
      have h1 : List.count '\n' ("\n" : String).data = 1 := by decide
      simp only [countNL, String.data_append, List.count_append] at hl hrest h1 ⊢
      simp only [List.length_cons] at hrest ⊢
      omega

/-- Every line `str.splitlines` produces is free of newline characters. -/
theorem pySplitlinesAux_no_nl (cs acc : List Char) (hacc : acc.count '\n' = 0) :
    ∀ l ∈ pySplitlinesAux cs acc, countNL l = 0 := by
  induction cs, acc using pySplitlinesAux.induct with
  | case1 acc he => intro l hl; simp [pySplitlinesAux, he] at hl
  | case2 acc he =>
    intro l hl
    simp only [pySplitlinesAux, List.isEmpty_iff] at hl
    rw [if_neg (by simpa [List.isEmpty_iff] using he)] at hl
    simp only [List.mem_singleton] at hl
    simp [hl, countNL, List.count_reverse, hacc]
  | case3 rest acc ih =>
    intro l hl
    simp only [pySplitlinesAux, List.mem_cons] at hl
    rcases hl with hl | hl
    · simp [hl, countNL, List.count_reverse, hacc]
    · exact ih rfl l hl
  | case4 rest acc ih =>
    intro l hl
    simp only [pySplitlinesAux, List.mem_cons] at hl
    rcases hl with hl | hl
    · simp [hl, countNL, List.count_reverse, hacc]
    · exact ih rfl l hl
  | case5 rest acc hne ih =>
    intro l hl
    rw [show pySplitlinesAux ('\x0d' :: rest) acc =
        ⟨acc.reverse⟩ :: pySplitlinesAux rest [] from by
      cases rest with
      | nil => rfl
      | cons c2 rest2 =>
        by_cases h2 : c2 = '\n'
        · exact absurd (by rw [h2]) (hne rest2)
        · simp [pySplitlinesAux, h2]] at hl
    rcases List.mem_cons.mp hl with hl | hl
    · simp [hl, countNL, List.count_reverse, hacc]
    · exact ih rfl l hl
  | case6 c rest acc hn hrn hr ih =>
    intro l hl
    have hstep : pySplitlinesAux (c :: rest) acc = pySplitlinesAux rest (c :: acc) := by
      rw [pySplitlinesAux.eq_def]
      split <;> simp_all
    rw [hstep] at hl
    refine ih ?_ l hl
    rw [List.count_cons, hacc]
    simpa using hn

/-- Residual lines are lines of the file. -/
theorem keep_subset (lines : List String) (q : Nat × String → Bool) :
    ∀ x ∈ (lines.enum.filter q).map Prod.snd, x ∈ lines := by
  intro x hx
  rcases List.mem_map.mp hx with ⟨pr, hpr, rfl⟩
  have h1 : pr ∈ lines.enum := List.mem_of_mem_filter hpr
  have h2 : pr.2 ∈ lines.enum.map Prod.snd := List.mem_map_of_mem Prod.snd h1
  rwa [List.enum_map_snd] at h2

/-- Field values of a declaration chunk whose node has well-formed line
information. -/
theorem declChunk_fields (pyparse : String → Option PyNode)
    (path content : String) (imports : List String) (n : PyNode) (e : Nat)
    (hl : 1 ≤ n.lineno) (he : n.endLineno = some e) (hle : n.lineno ≤ e) :
    (declChunk pyparse path content imports n).start_line = (n.lineno : Int) ∧
    (declChunk pyparse path content imports n).end_line = (e : Int) ∧
    (declChunk pyparse path content imports n).loc =
      (e : Int) - (n.lineno : Int) + 1 := by
  have hne : ((n.lineno : Int)) ≠ 0 := by omega
  unfold declChunk make_chunk
  rw [he]
  refine ⟨by simp [hne], by simp, ?_⟩
  simp only [if_neg hne]
  rw [max_eq_right (by omega)]

/-- Field values of the module chunk (start 1, estimated end). -/
theorem moduleChunk_fields (pyparse : String → Option PyNode)
    (path code : String) (imports : List String) (doc : Option String) :
    (make_chunk pyparse path "module" none (some 1) none code imports doc
      "python").start_line = 1 ∧
    (make_chunk pyparse path "module" none (some 1) none code imports doc
      "python").end_line = 1 + (countNL code : Int) ∧
    (make_chunk pyparse path "module" none (some 1) none code imports doc
      "python").loc = (countNL code : Int) + 1 := by
  unfold make_chunk
  refine ⟨by simp, by simp, ?_⟩
  simp only [if_neg (by omega : ¬(1 : Int) = 0)]
  rw [max_eq_right (by omega)]
  ring

/-- The loc values of the declaration chunks sum to the total number of
lines the declaration ranges cover. -/
theorem sum_declChunk_loc (pyparse : String → Option PyNode)
    (path content : String) (imports : List String) (L : Nat) :
    ∀ ds : List PyNode,
    (∀ n ∈ ds, 1 ≤ n.lineno ∧ ∃ e, n.endLineno = some e ∧ n.lineno ≤ e ∧ e ≤ L) →
    ((ds.map (declChunk pyparse path content imports)).map Chunk.loc).sum =
      (((ds.map (fun n =>
        (n.endLineno.getD ((n.lineno - 1) + 1)) - (n.lineno - 1))).sum : ℕ) : Int) := by
  intro ds
  induction ds with
  | nil => simp
  | cons n ds ih =>
    intro hf
    rcases hf n (List.mem_cons_self n ds) with ⟨hl, e, he, hle, _⟩
    have hlocs := (declChunk_fields pyparse path content imports n e hl he hle).2.2
    simp only [List.map_cons, List.sum_cons, hlocs,
      ih (fun m hm => hf m (List.mem_cons_of_mem n hm)), he, Option.getD]
    push_cast
    omega

/-- C1 (amended): on a successful parse with well-formed, pairwise-disjoint
top-level declaration ranges and a non-blank residual, the emitted
declaration chunks (the tail of the output) have pairwise-disjoint,
ordered line spans; the module chunk comes first with `start_line = 1` and
`end_line` equal to the number of residual (uncovered) source lines — an
initial segment standing in for the residual, not its actual line
positions — and the `loc` values of all chunks sum exactly to the file's
line count. -/
theorem C1_span_structure (pyparse : String → Option PyNode)
    (path content : String) (tree : PyNode)
    (hp : pyparse content = some tree)
    (hwf : tree.body.all (declWF (pySplitlines content).length) = true)
    (hdisj : (remove_ranges tree).Pairwise (fun a b => a.2 ≤ b.1))
    (hres : pyStrip (get_module_level_code content tree) ≠ "") :
    List.Pairwise (fun c d => c.end_line < d.start_line)
      (parse_python pyparse path content).tail ∧
    (∃ m, (parse_python pyparse path content).head? = some m ∧ m.type = "module" ∧
      m.start_line = 1 ∧
      m.end_line = (((List.range (pySplitlines content).length).countP
        (fun i => !(coveredB (remove_ranges tree) i)) : ℕ) : Int)) ∧
    ((parse_python pyparse path content).map Chunk.loc).sum =
      (((pySplitlines content).length : ℕ) : Int) := by
  have hwf' := List.all_eq_true.mp hwf
  set L := (pySplitlines content).length with hL
  set rs := remove_ranges tree with hrsdef
  set imports := collectImports tree with himp
  set module_code := get_module_level_code content tree with hmcode
  set ds := tree.body.filter (fun n => isDecl n.kind) with hds
  have hfact : ∀ n ∈ ds, 1 ≤ n.lineno ∧
      ∃ e, n.endLineno = some e ∧ n.lineno ≤ e ∧ e ≤ L := by
    intro n hn
    rcases List.mem_filter.mp hn with ⟨hmem, hdecl⟩
    have hw := hwf' n hmem
    unfold declWF at hw
    rw [hdecl] at hw
    rcases hend : n.endLineno with _ | e <;> rw [hend] at hw <;>
      simp only [Bool.not_true, Bool.false_or, Bool.and_eq_true,
        decide_eq_true_eq] at hw
    · exact absurd hw.2 (by simp)
    · exact ⟨hw.1, e, rfl, hw.2.1, hw.2.2⟩
  have hrs_map : rs = ds.map
      (fun n => (n.lineno - 1, n.endLineno.getD ((n.lineno - 1) + 1))) := by
    rw [hrsdef, remove_ranges, hds]
    exact filterMap_if _ _ _
  have hout : parse_python pyparse path content =
      make_chunk pyparse path "module" none (some 1) none module_code imports
          tree.docstring "python"
        :: ds.map (declChunk pyparse path content imports) := by
    simp only [parse_python, hp]
    rw [filterMap_if]
    simp only [← hmcode, ← himp, ← hds]
    rw [if_pos hres]
  set keepL := ((pySplitlines content).enum.filter
    (fun p => !(coveredB rs p.1))).map Prod.snd with hkeep
  have hmc_code : module_code = joinNL keepL := by
    rw [hmcode, hkeep, hrsdef]
    rfl
  have hkeep_ne : keepL ≠ [] := by
    intro h
    apply hres
    have hmn : module_code = "" := by rw [hmc_code, h]; rfl
    rw [hmn]
    rfl
  have hnonl : ∀ l ∈ keepL, countNL l = 0 := by
    intro l hl
    exact pySplitlinesAux_no_nl content.data [] rfl l (keep_subset _ _ l hl)
  have hcnt : countNL module_code = keepL.length - 1 := by
    rw [hmc_code]
    exact countNL_joinNL keepL hnonl
  have hlen : keepL.length = (List.range L).countP (fun i => !(coveredB rs i)) :=
    keep_length _ _
  have hK1 : 1 ≤ keepL.length := List.length_pos.mpr hkeep_ne
  have hbound : ∀ r ∈ rs, r.2 ≤ L := by
    intro r hr
    rw [hrs_map] at hr
    rcases List.mem_map.mp hr with ⟨n, hn, rfl⟩
    rcases hfact n hn with ⟨_, e, he, _, heL⟩
    simpa [he] using heL
  have hcov : (List.range L).countP (coveredB rs) =
      (rs.map (fun r => r.2 - r.1)).sum := countP_covered rs L hbound hdisj
  have hsplit := range_countP_split (coveredB rs) L
  have hdsum := sum_declChunk_loc pyparse path content imports L ds hfact
  have hspan_eq : (rs.map (fun r => r.2 - r.1)).sum =
      (ds.map (fun n =>
        (n.endLineno.getD ((n.lineno - 1) + 1)) - (n.lineno - 1))).sum := by
    rw [hrs_map, List.map_map]
    rfl
  have hmf := moduleChunk_fields pyparse path module_code imports tree.docstring
  refine ⟨?_, ⟨_, ?_, rfl, hmf.1, ?_⟩, ?_⟩
  · rw [hout]
    simp only [List.tail_cons]
    rw [List.pairwise_map]
    have hpair := List.pairwise_map.mp (hrs_map ▸ hdisj)
    refine hpair.imp_of_mem ?_
    intro a b ha hb hab
    rcases hfact a ha with ⟨hal, ea, hae, halee, _⟩
    rcases hfact b hb with ⟨hbl, eb, hbe, hblee, _⟩
    rw [(declChunk_fields pyparse path content imports a ea hal hae halee).2.1,
      (declChunk_fields pyparse path content imports b eb hbl hbe hblee).1]
    simp only [hae, hbe, Option.getD] at hab
    omega
  · rw [hout]
    rfl
  · rw [hmf.2.1, hcnt]
    rw [← hlen]
    push_cast [Nat.cast_sub hK1]
    ring
  · rw [hout]
    simp only [List.map_cons, List.sum_cons]
    rw [hmf.2.2, hcnt, hdsum, ← hspan_eq]
    rw [← hcov]
    have hlenL : keepL.length + (List.range L).countP (coveredB rs) = L := by
      rw [hlen]
      exact hsplit
    push_cast [Nat.cast_sub hK1]
    omega

/-- C1 counterexample: for `"x = 1\ndef f():\n    pass\ny = 2"` (4 lines,
with the declaration on lines 2–3 and residual lines 1 and 4), the module
chunk's recorded span is `[1, 2]`: line 2 falls inside the spans of two
chunks and line 4 inside none — the spans do not partition `[1, 4]` and
the module chunk's span is not the complement of the declaration spans. -/
theorem C1_cex :
    (parse_python cexParse "a.py" cexContent).length = 2 ∧
    (parse_python cexParse "a.py" cexContent).map
      (fun c => (c.type, c.start_line, c.end_line)) =
      [("module", 1, 2), ("function", 2, 3)] ∧
    (pySplitlines cexContent).length = 4 ∧
    (parse_python cexParse "a.py" cexContent).countP
      (fun c => decide (c.start_line ≤ 2) && decide ((2 : Int) ≤ c.end_line)) = 2 ∧
    (parse_python cexParse "a.py" cexContent).countP
      (fun c => decide (c.start_line ≤ 4) && decide ((4 : Int) ≤ c.end_line)) = 0 :=
  ⟨by decide, by decide, by decide, by decide, by decide⟩

/-- C1 witness: the amended span structure at the same concrete file —
disjoint declaration spans, module chunk first with span `[1, 2]` (its 2
residual lines), loc values summing to 4. -/
theorem C1_witness :
    (cexParse cexContent = some cexTree ∧
     cexTree.body.all (declWF (pySplitlines cexContent).length) = true ∧
     List.Pairwise (fun (a b : Nat × Nat) => a.2 ≤ b.1) (remove_ranges cexTree) ∧
     pyStrip (get_module_level_code cexContent cexTree) ≠ "") ∧
    (List.Pairwise (fun c d => c.end_line < d.start_line)
      (parse_python cexParse "a.py" cexContent).tail ∧
    (∃ m, (parse_python cexParse "a.py" cexContent).head? = some m ∧
      m.type = "module" ∧ m.start_line = 1 ∧
      m.end_line = (((List.range (pySplitlines cexContent).length).countP
        (fun i => !(coveredB (remove_ranges cexTree) i)) : ℕ) : Int)) ∧
    ((parse_python cexParse "a.py" cexContent).map Chunk.loc).sum =
      (((pySplitlines cexContent).length : ℕ) : Int)) :=
  ⟨⟨rfl, by decide, by decide, by decide⟩,
    C1_span_structure cexParse "a.py" cexContent cexTree rfl (by decide) (by decide)
      (by decide)⟩
